import Mathlib

set_option maxRecDepth 8000
set_option maxHeartbeats 1000000

/-!
Shallow embedding of `src/project.py`, a payroll batch script: load a
spreadsheet, normalize columns, render one payslip per row, and e-mail
it.  Cell values are modelled by `CellValue` (pandas cells are numbers,
strings, or NaN/missing); currency amounts are rationals.  External
effects (PDF cell rendering, file writes, SMTP dispatch) are modelled by
an `Env` of per-record outcome oracles, and the observable behaviour of
a run is a list of `Event`s.
-/

namespace Project

/-- A pandas cell: a numeric value, a string, or missing (NaN). -/
inductive CellValue where
  | num (q : ℚ)
  | str (s : String)
  | missing
  deriving DecidableEq, Repr

/-- A tabular source: a header row and data rows (rectangular in pandas). -/
structure Table where
  headers : List String
  rows : List (List CellValue)
  deriving DecidableEq, Repr

/-- Index of the first occurrence of column name `c` in the header list,
as pandas column lookup. -/
def colIndex : List String → String → Option Nat
  | [], _ => none
  | h :: hs, c => if h = c then some 0 else (colIndex hs c).map (· + 1)

/-- `row[c]`: the cell of `r` under column `c` of header list `hs`.
Columns accessed by the script always exist after normalization. -/
def getCell (hs : List String) (r : List CellValue) (c : String) : CellValue :=
  match colIndex hs c with
  | some i => r.getD i CellValue.missing
  | none => CellValue.missing

/-- Python `str.strip()` (and pandas `.str.strip()`): drop leading and
trailing whitespace. -/
def pyStrip (s : String) : String :=
  String.mk (((s.data.dropWhile Char.isWhitespace).reverse.dropWhile Char.isWhitespace).reverse)

/-- `employee_data.rename(columns={'Allawances': 'Allowance', 'Deduction': 'Deductions'})`
applied to one header (project.py lines 21-24).  Note the first key is
the misspelling `Allawances`, not `Allowances`. -/
def renameHeader (h : String) : String :=
  if h = "Allawances" then "Allowance"
  else if h = "Deduction" then "Deductions"
  else h

/-- `employee_data.columns.str.strip()` then the rename map (lines 18-24). -/
def normalizeHeaders (t : Table) : Table :=
  ⟨(t.headers.map pyStrip).map renameHeader, t.rows⟩

/-- `required_columns` (line 27). -/
def requiredColumns : List String :=
  ["Employee ID", "Name", "Basic Salary", "Allowance", "Deductions", "Email"]

/-- `0 if col != 'Email' else ''` (line 30).  Note the default for every
non-Email column, the `Name` column included, is the number `0`. -/
def defaultFor (c : String) : CellValue :=
  if c = "Email" then CellValue.str "" else CellValue.num 0

/-- One step of the loop at lines 28-30: a required column absent from
the headers is appended, with every row receiving the default value. -/
def addCol (t : Table) (c : String) : Table :=
  if c ∈ t.headers then t
  else ⟨t.headers ++ [c], t.rows.map (fun r => r ++ [defaultFor c])⟩

/-- The whole loop at lines 28-30. -/
def addMissing (t : Table) : Table :=
  requiredColumns.foldl addCol t

/-- Value of a digit list, most significant first (helper for parsing). -/
def digitsToNat (cs : List Char) : Nat :=
  cs.foldl (fun n c => n * 10 + (c.toNat - 48)) 0

/-- Numeric-string grammar accepted by `pd.to_numeric` on strings:
optional surrounding whitespace, optional sign, digits with an optional
fractional part.  Returns `none` where pandas would produce NaN under
`errors='coerce'`. -/
def parseNumString (s : String) : Option ℚ :=
  let cs := (pyStrip s).data
  let signed : Bool × List Char :=
    match cs with
    | '-' :: rest => (true, rest)
    | '+' :: rest => (false, rest)
    | _ => (false, cs)
  let intPart := signed.2.takeWhile (fun c => c ≠ '.')
  let rest := signed.2.dropWhile (fun c => c ≠ '.')
  let mk : List Char → List Char → Option ℚ := fun ip fp =>
    let n : Int := Int.ofNat (digitsToNat ip * 10 ^ fp.length + digitsToNat fp)
    some (mkRat (if signed.1 then -n else n) (10 ^ fp.length))
  match rest with
  | [] =>
    if intPart ≠ [] ∧ intPart.all Char.isDigit then mk intPart [] else none
  | '.' :: frac =>
    if (intPart ≠ [] ∨ frac ≠ []) ∧ intPart.all Char.isDigit ∧ frac.all Char.isDigit then
      mk intPart frac
    else none
  | _ :: _ => none

/-- `pd.to_numeric(v, errors='coerce').fillna(0)` on one cell (lines
33-35): numbers pass through, parseable strings parse, everything else
becomes NaN and then 0. -/
def toNumericCoerce (v : CellValue) : CellValue :=
  match v with
  | CellValue.num q => CellValue.num q
  | CellValue.str s =>
    match parseNumString s with
    | some q => CellValue.num q
    | none => CellValue.num 0
  | CellValue.missing => CellValue.num 0

/-- `employee_data[c] = f(employee_data[c])`: replace column `c`
cell-wise.  The column is always present when this runs (ensured at
lines 28-30); on a missing column pandas would raise, never reached. -/
def mapColumn (t : Table) (c : String) (f : CellValue → CellValue) : Table :=
  match colIndex t.headers c with
  | some i => ⟨t.headers, t.rows.map (fun r => r.set i (f (r.getD i CellValue.missing)))⟩
  | none => t

/-- The whole loader/normalizer (lines 17-35): strip and rename headers,
synthesize missing required columns, coerce the three numeric columns. -/
def loadTable (t : Table) : Table :=
  let t1 := normalizeHeaders t
  let t2 := addMissing t1
  let t3 := mapColumn t2 "Basic Salary" toNumericCoerce
  let t4 := mapColumn t3 "Allowance" toNumericCoerce
  mapColumn t4 "Deductions" toNumericCoerce

/-! ## Renderer, dispatcher guard and the per-record loop (lines 37-137) -/

/-- Python `f"{x:.2f}"` on a real number: the sign of the value, then
the absolute value rounded to two decimals (negative values always carry
a minus sign; Python renders even `-0.0001` as `"-0.00"`).  The cent
count is `(200*|num| + den) / (2*den)`, i.e. `|q|*100` rounded half-up;
the claims checked here do not depend on the tie-breaking direction. -/
def formatFixed2 (q : ℚ) : String :=
  let cents : ℕ := (200 * q.num.natAbs + q.den) / (2 * q.den)
  (if q.num < 0 then "-" else "")
    ++ toString (cents / 100) ++ "."
    ++ (if cents % 100 < 10 then "0" else "") ++ toString (cents % 100)

/-- Python `f"{v}"` string conversion of a cell, used for display-only
fields (Employee ID, Name). -/
def pyShowCell (v : CellValue) : String :=
  match v with
  | CellValue.num q => toString q.num ++ (if q.den = 1 then "" else "/" ++ toString q.den)
  | CellValue.str s => s
  | CellValue.missing => "nan"

/-- Python `f"... {v:.2f}"` on a cell: numbers format, anything else
raises `ValueError` (unknown format code for the object's type). -/
def formatMoneyCell (v : CellValue) : Except String String :=
  match v with
  | CellValue.num q => Except.ok (formatFixed2 q)
  | CellValue.str _ => Except.error "ValueError: Unknown format code f for object of type str"
  | CellValue.missing => Except.error "ValueError: Unknown format code f"

/-- `net_salary = row['Basic Salary'] + row['Allowance'] - row['Deductions']`
(line 107), computed in the loop body at render time. -/
def netSalary (b a d : ℚ) : ℚ :=
  b + a - d

/-- The text lines of one payslip PDF body (lines 84-110): identity
block, salary block, and the right-aligned net-salary line.  Fails where
the Python f-strings would raise. -/
def renderDoc (hs : List String) (r : List CellValue) : Except String (List String) := do
  let b := getCell hs r "Basic Salary"
  let a := getCell hs r "Allowance"
  let d := getCell hs r "Deductions"
  let bs ← formatMoneyCell b
  let alw ← formatMoneyCell a
  let ds ← formatMoneyCell d
  let netLine ←
    match b, a, d with
    | CellValue.num qb, CellValue.num qa, CellValue.num qd =>
      Except.ok ("Net Salary    : $ " ++ formatFixed2 (netSalary qb qa qd))
    | _, _, _ => Except.error "TypeError: unsupported operand type for +"
  Except.ok
    [ "Employee Details:"
    , "Employee ID   : " ++ pyShowCell (getCell hs r "Employee ID")
    , "Name          : " ++ pyShowCell (getCell hs r "Name")
    , "Salary Details:"
    , "Basic Salary  : $ " ++ bs
    , "Allowance     : $ " ++ alw
    , "Deductions    : $ " ++ ds
    , netLine ]

/-- Python `s.replace(' ', '_')` for a one-character pattern: map each
space to an underscore. -/
def replaceSpaces (s : String) : String :=
  String.mk (s.data.map (fun c => if c = ' ' then '_' else c))

/-- `row['Name'].replace(' ', '_')` (line 113): only strings have
`.replace`; the numeric default synthesized for a missing Name column,
or a NaN cell, raises `AttributeError`. -/
def nameToFileBase (v : CellValue) : Except String String :=
  match v with
  | CellValue.str s => Except.ok (replaceSpaces s)
  | CellValue.num _ => Except.error "AttributeError: int object has no attribute replace"
  | CellValue.missing => Except.error "AttributeError: float object has no attribute replace"

/-- `output_dir = "payslips"` (line 76). -/
def outputDir : String := "payslips"

/-- `os.path.join(output_dir, f"{base}_Payslip.pdf")` (lines 113-114). -/
def payslipPath (base : String) : String :=
  outputDir ++ "/" ++ base ++ "_Payslip.pdf"

/-- The dispatch guard (line 118):
`if pd.notna(row['Email']) and row['Email'].strip():`.
Returns the recipient when dispatch must happen, `none` when the record
is skipped, and raises when `.strip()` is called on a non-string. -/
def emailGuard (v : CellValue) : Except String (Option String) :=
  match v with
  | CellValue.missing => Except.ok none
  | CellValue.str s => Except.ok (if pyStrip s = "" then none else some s)
  | CellValue.num _ => Except.error "AttributeError: float object has no attribute strip"

/-- Observable events of a run: the per-record progress print, a PDF
file write, an SMTP dispatch, the per-record error print, and the final
completion print. -/
inductive Event where
  | processing (name email : CellValue)
  | wrote (path : String) (doc : List String)
  | dispatched (rcpt : String) (path : String)
  | errLine (name id : CellValue) (msg : String)
  | finalLine
  deriving DecidableEq, Repr

/-- The external world: whether PDF in-memory rendering, the PDF file
write, and the SMTP dispatch succeed or raise for record `i`.  These
model the fpdf, filesystem and smtplib effects the script does not
control. -/
structure Env where
  renderErr : Nat → Option String
  writeErr : Nat → Option String
  dispatchErr : Nat → Option String

/-- The `try:` block for record `i` after the progress print
(lines 84-132): events emitted, paired with the exception if one was
raised.  Mirrors the source order: PDF construction, filename
derivation, file write, then the guarded dispatch. -/
def tryRest (env : Env) (i : Nat) (hs : List String) (r : List CellValue) :
    List Event × Option String :=
  match renderDoc hs r with
  | Except.error e => ([], some e)
  | Except.ok doc =>
    match env.renderErr i with
    | some e => ([], some e)
    | none =>
      match nameToFileBase (getCell hs r "Name") with
      | Except.error e => ([], some e)
      | Except.ok base =>
        match env.writeErr i with
        | some e => ([], some e)
        | none =>
          let ev1 := [Event.wrote (payslipPath base) doc]
          match emailGuard (getCell hs r "Email") with
          | Except.error e => (ev1, some e)
          | Except.ok none => (ev1, none)
          | Except.ok (some addr) =>
            match env.dispatchErr i with
            | some e => (ev1, some e)
            | none => (ev1 ++ [Event.dispatched addr (payslipPath base)], none)

/-- Body of the `try:` block for record `i` (lines 81-132): the progress
print always comes first. -/
def tryBody (env : Env) (i : Nat) (hs : List String) (r : List CellValue) :
    List Event × Option String :=
  (Event.processing (getCell hs r "Name") (getCell hs r "Email") :: (tryRest env i hs r).1,
   (tryRest env i hs r).2)

/-- One iteration of the loop with its `except Exception` handler
(lines 80-135): a raised exception is caught and turned into the
diagnostic print naming the employee's name and id. -/
def processEmployee (env : Env) (i : Nat) (hs : List String) (r : List CellValue) :
    List Event :=
  match tryBody env i hs r with
  | (evs, none) => evs
  | (evs, some e) =>
    evs ++ [Event.errLine (getCell hs r "Name") (getCell hs r "Employee ID") e]

/-- The whole loop over `employee_data.iterrows()` plus the final
success print (lines 80-137). -/
def runBatch (env : Env) (t : Table) : List Event :=
  ((t.rows.enum.map (fun p => processEmployee env p.1 t.headers p.2)).flatten)
    ++ [Event.finalLine]

/-- Load/normalize, then process every record. -/
def runProgram (env : Env) (t : Table) : List Event :=
  runBatch env (loadTable t)

/-- The file writes performed by a run, in order: path and content. -/
def writesOf (evs : List Event) : List (String × List String) :=
  evs.filterMap (fun ev =>
    match ev with
    | Event.wrote p d => some (p, d)
    | _ => none)

/-- The file content at path `p` once all writes have been applied in
order: the last write to `p` wins (`pdf.output` overwrites). -/
def fsAfter (evs : List Event) (p : String) : Option (List String) :=
  (((writesOf evs).filter (fun w => w.1 = p)).getLast?).map (fun w => w.2)

/-! ## Startup configuration (lines 9-14) -/

/-- The four transport settings as the environment provides them
(`os.getenv` returns `None` when a variable is absent). -/
structure Config where
  smtpServer : Option String
  smtpPort : Option String
  emailAddress : Option String
  emailPassword : Option String
  deriving DecidableEq, Repr

/-- Python `int(s)` on a string: optional surrounding whitespace,
optional sign, one or more digits; anything else raises `ValueError`. -/
def parsePyInt (s : String) : Option Int :=
  let cs := (pyStrip s).data
  let signed : Bool × List Char :=
    match cs with
    | '-' :: rest => (true, rest)
    | '+' :: rest => (false, rest)
    | _ => (false, cs)
  if signed.2 ≠ [] ∧ signed.2.all Char.isDigit then
    some (if signed.1 then -(Int.ofNat (digitsToNat signed.2)) else Int.ofNat (digitsToNat signed.2))
  else none

/-- `int(os.getenv('SMTP_PORT'))` (line 12): `int(None)` raises
`TypeError`, an unparseable string raises `ValueError`. -/
def pyIntOfEnv (v : Option String) : Except String Int :=
  match v with
  | none => Except.error "TypeError: int() argument must be a string, not NoneType"
  | some s =>
    match parsePyInt s with
    | some n => Except.ok n
    | none => Except.error "ValueError: invalid literal for int()"

/-- The module-level values after lines 11-14: server, address and
password are stored as read (possibly `None`); only the port conversion
can raise at startup. -/
structure LoadedConfig where
  server : Option String
  port : Int
  address : Option String
  password : Option String
  deriving DecidableEq, Repr

/-- Startup (lines 11-14): fails iff `int(os.getenv('SMTP_PORT'))` raises. -/
def startup (c : Config) : Except String LoadedConfig :=
  match pyIntOfEnv c.smtpPort with
  | Except.error e => Except.error e
  | Except.ok p => Except.ok ⟨c.smtpServer, p, c.emailAddress, c.emailPassword⟩

/-- The whole script: startup, then `pd.read_excel` (whose result or
failure is `source`), then the batch.  An exception at startup or load
aborts before any record is processed, producing no events. -/
def runMain (c : Config) (env : Env) (source : Except String Table) : List Event :=
  match startup c with
  | Except.error _ => []
  | Except.ok _ =>
    match source with
    | Except.error _ => []
    | Except.ok t => runProgram env t

/-- Rectangularity: every row has one cell per header column (guaranteed
by pandas for any loaded DataFrame). -/
def Rect (t : Table) : Prop :=
  ∀ r ∈ t.rows, r.length = t.headers.length

instance (t : Table) : Decidable (Rect t) := by
  unfold Rect
  infer_instance

/-! ## Concrete instances used to exercise the theorems -/

/-- An environment in which rendering, writing and dispatch all succeed. -/
def envNone : Env := ⟨fun _ => none, fun _ => none, fun _ => none⟩

/-- The six canonical headers, in order. -/
def hsFull : List String :=
  ["Employee ID", "Name", "Basic Salary", "Allowance", "Deductions", "Email"]

/-- A fully populated row with a valid e-mail address. -/
def rowAnn : List CellValue :=
  [CellValue.num 1, CellValue.str "Ann Bee", CellValue.num 100, CellValue.num 10,
   CellValue.num 5, CellValue.str "ann@example.com"]

/-- A row whose Email cell is whitespace only. -/
def rowBlankMail : List CellValue :=
  [CellValue.num 2, CellValue.str "Bo Cy", CellValue.num 100, CellValue.num 10,
   CellValue.num 5, CellValue.str "   "]

/-- A row whose deductions exceed basic salary plus allowance. -/
def rowNeg : List CellValue :=
  [CellValue.num 3, CellValue.str "Dee Ess", CellValue.num 1000, CellValue.num 500,
   CellValue.num 2000, CellValue.str ""]

/-- The payslip document rendered for `rowAnn`. -/
def docAnn : List String :=
  ["Employee Details:", "Employee ID   : 1", "Name          : Ann Bee", "Salary Details:",
   "Basic Salary  : $ 100.00", "Allowance     : $ 10.00", "Deductions    : $ 5.00",
   "Net Salary    : $ 105.00"]

/-- A configuration whose server host is absent but whose port is set. -/
def cfgC2 : Config := ⟨none, some "587", some "sender@example.com", some "pw"⟩

/-- One-row source table used with `cfgC2`. -/
def tblC2 : Table := ⟨hsFull, [rowAnn]⟩

/-- An environment whose SMTP dispatch fails for every record. -/
def envC2 : Env :=
  ⟨fun _ => none, fun _ => none, fun _ => some "ConnectionRefusedError: could not connect"⟩

/-- An environment whose PDF rendering raises for every record. -/
def envC6 : Env :=
  ⟨fun _ => some "UnicodeEncodeError: latin-1 codec cannot encode character",
   fun _ => none, fun _ => none⟩

/-- A source table with an `Allowances` (plural) header. -/
def tblAllowances : Table := ⟨["Allowances"], [[CellValue.num 500]]⟩

/-- A source table whose only header differs from `Name` in case. -/
def tblLowerName : Table := ⟨["name"], [[CellValue.str "Bob"]]⟩

/-- A source table with a non-numeric Basic Salary value. -/
def tblC5 : Table := ⟨["Basic Salary"], [[CellValue.str "N/A"]]⟩

/-- A source table with an `Allowances` header and one valued row, for
exercising the synthesized defaults. -/
def tblC8 : Table := ⟨["Allowances", "Email"], [[CellValue.num 500, CellValue.str "x@y.z"]]⟩

/-- A source table with no Name column at all. -/
def tblNoName : Table := ⟨["Employee ID"], [[CellValue.num 7]]⟩

/-! ## Helper lemmas: column lookup -/

theorem colIndex_lt {hs : List String} {c : String} {i : Nat}
    (h : colIndex hs c = some i) : i < hs.length := by
  induction hs generalizing i with
  | nil => simp [colIndex] at h
  | cons a hs ih =>
    by_cases hac : a = c
    · simp [colIndex, hac] at h
      simp only [List.length_cons]
      omega
    · simp [colIndex, hac] at h
      cases hrec : colIndex hs c with
      | none => rw [hrec] at h; simp at h
      | some j =>
        rw [hrec] at h
        simp at h
        have := ih hrec
        simp only [List.length_cons]
        omega

theorem colIndex_getD {hs : List String} {c : String} {i : Nat}
    (h : colIndex hs c = some i) : hs.getD i "" = c := by
  induction hs generalizing i with
  | nil => simp [colIndex] at h
  | cons a hs ih =>
    by_cases hac : a = c
    · simp [colIndex, hac] at h
      simp [← h, hac]
    · simp [colIndex, hac] at h
      cases hrec : colIndex hs c with
      | none => rw [hrec] at h; simp at h
      | some j =>
        rw [hrec] at h
        simp at h
        have hgd := ih hrec
        rw [← h]
        simpa [List.getD_cons_succ] using hgd

theorem colIndex_inj {hs : List String} {c x : String} {i : Nat}
    (hc : colIndex hs c = some i) (hx : colIndex hs x = some i) : c = x := by
  have h1 := colIndex_getD hc
  have h2 := colIndex_getD hx
  rw [h1] at h2
  exact h2

theorem colIndex_isSome_of_mem {hs : List String} {c : String} (h : c ∈ hs) :
    ∃ i, colIndex hs c = some i := by
  induction hs with
  | nil => simp at h
  | cons a hs ih =>
    by_cases hac : a = c
    · exact ⟨0, by simp [colIndex, hac]⟩
    · have hmem : c ∈ hs := by
        rcases List.mem_cons.mp h with h1 | h1
        · exact absurd h1.symm hac
        · exact h1
      obtain ⟨j, hj⟩ := ih hmem
      exact ⟨j + 1, by simp [colIndex, hac, hj]⟩

theorem colIndex_none_of_not_mem {hs : List String} {c : String} (h : c ∉ hs) :
    colIndex hs c = none := by
  induction hs with
  | nil => rfl
  | cons a hs ih =>
    have hac : a ≠ c := fun he => h (he ▸ List.mem_cons_self a hs)
    have hmem : c ∉ hs := fun hm => h (List.mem_cons_of_mem a hm)
    simp [colIndex, hac, ih hmem]

theorem colIndex_append_left {hs ys : List String} {c : String} {i : Nat}
    (h : colIndex hs c = some i) : colIndex (hs ++ ys) c = some i := by
  induction hs generalizing i with
  | nil => simp [colIndex] at h
  | cons a hs ih =>
    by_cases hac : a = c
    · simp [colIndex, hac] at h ⊢
      exact h
    · simp [colIndex, hac] at h ⊢
      cases hrec : colIndex hs c with
      | none => rw [hrec] at h; simp at h
      | some j =>
        rw [hrec] at h
        simp at h
        rw [ih hrec]
        simpa using h

theorem colIndex_append_right {hs ys : List String} {c : String}
    (h : c ∉ hs) : colIndex (hs ++ ys) c = (colIndex ys c).map (· + hs.length) := by
  induction hs with
  | nil => simp [Option.map_id]
  | cons a hs ih =>
    have hac : a ≠ c := fun he => h (he ▸ List.mem_cons_self a hs)
    have hmem : c ∉ hs := fun hm => h (List.mem_cons_of_mem a hm)
    simp [colIndex, hac, ih hmem, Option.map_map]

theorem getCell_eq_getD {hs : List String} {r : List CellValue} {c : String} {i : Nat}
    (h : colIndex hs c = some i) : getCell hs r c = r.getD i CellValue.missing := by
  simp [getCell, h]

theorem getCell_of_none {hs : List String} {r : List CellValue} {c : String}
    (h : colIndex hs c = none) : getCell hs r c = CellValue.missing := by
  simp [getCell, h]

theorem getD_set_self {r : List CellValue} {i : Nat} {v d : CellValue}
    (h : i < r.length) : (r.set i v).getD i d = v := by
  simp [List.getD, List.getElem?_set_eq_of_lt v h]

theorem getD_set_ne {r : List CellValue} {i j : Nat} {v d : CellValue}
    (h : i ≠ j) : (r.set i v).getD j d = r.getD j d := by
  simp [List.getD, List.getElem?_set_ne h]

theorem getCell_set_self {hs : List String} {r : List CellValue} {c : String} {i : Nat}
    {v : CellValue} (h : colIndex hs c = some i) (hlen : i < r.length) :
    getCell hs (r.set i v) c = v := by
  rw [getCell_eq_getD h, getD_set_self hlen]

theorem getCell_set_ne {hs : List String} {r : List CellValue} {c x : String} {i : Nat}
    {v : CellValue} (h : colIndex hs c = some i) (hx : x ≠ c) :
    getCell hs (r.set i v) x = getCell hs r x := by
  cases hix : colIndex hs x with
  | none => rw [getCell_of_none hix, getCell_of_none hix]
  | some j =>
    have hij : i ≠ j := by
      intro he
      subst he
      exact hx (colIndex_inj hix h)
    rw [getCell_eq_getD hix, getCell_eq_getD hix, getD_set_ne hij]

theorem getD_append_left {r s : List CellValue} {i : Nat} {d : CellValue}
    (h : i < r.length) : (r ++ s).getD i d = r.getD i d := by
  simp [List.getD, List.getElem?_append_left h]

theorem getD_append_right {r s : List CellValue} {j : Nat} {d : CellValue} :
    (r ++ s).getD (r.length + j) d = s.getD j d := by
  simp [List.getD, List.getElem?_append_right (Nat.le_add_right _ _)]

theorem getD_map_lt {l : List String} {f : String → CellValue} {j : Nat}
    {d : CellValue} {e : String} (h : j < l.length) :
    (l.map f).getD j d = f (l.getD j e) := by
  simp [List.getD, List.getElem?_map, List.getElem?_eq_getElem h]

/-! ## Helper lemmas: the required-columns loop (lines 28-30) -/

theorem foldl_addCol_spec (L : List String) (t : Table) :
    ∃ added : List String,
      (L.foldl addCol t).headers = t.headers ++ added ∧
      (L.foldl addCol t).rows = t.rows.map (fun r => r ++ added.map defaultFor) ∧
      (∀ c, c ∈ L → c ∈ t.headers ++ added) := by
  induction L generalizing t with
  | nil =>
    refine ⟨[], by simp, ?_, by simp⟩
    simp
  | cons a L ih =>
    by_cases hmem : a ∈ t.headers
    · have hstep : addCol t a = t := by simp [addCol, hmem]
      obtain ⟨added, h1, h2, h3⟩ := ih t
      refine ⟨added, ?_, ?_, ?_⟩
      · simpa [List.foldl_cons, hstep] using h1
      · simpa [List.foldl_cons, hstep] using h2
      · intro c hc
        rcases List.mem_cons.mp hc with hca | hcL
        · exact List.mem_append_left _ (hca ▸ hmem)
        · exact h3 c hcL
    · have hstep : addCol t a =
          ⟨t.headers ++ [a], t.rows.map (fun r => r ++ [defaultFor a])⟩ := by
        simp [addCol, hmem]
      obtain ⟨added, h1, h2, h3⟩ := ih (addCol t a)
      refine ⟨a :: added, ?_, ?_, ?_⟩
      · rw [List.foldl_cons, h1, hstep]
        simp
      · rw [List.foldl_cons, h2, hstep]
        simp [List.map_map, Function.comp]
      · intro c hc
        rcases List.mem_cons.mp hc with hca | hcL
        · subst hca
          exact List.mem_append_right _ (List.mem_cons_self _ _)
        · have := h3 c hcL
          rw [hstep] at this
          simp only [List.mem_append, List.mem_cons, List.mem_singleton] at this ⊢
          tauto

theorem addMissing_spec (t : Table) :
    ∃ added : List String,
      (addMissing t).headers = t.headers ++ added ∧
      (addMissing t).rows = t.rows.map (fun r => r ++ added.map defaultFor) ∧
      (∀ c, c ∈ requiredColumns → c ∈ (addMissing t).headers) := by
  obtain ⟨added, h1, h2, h3⟩ := foldl_addCol_spec requiredColumns t
  exact ⟨added, h1, h2, fun c hc => h1 ▸ h3 c hc⟩

theorem addMissing_cells (t : Table) (ht : Rect t) :
    Rect (addMissing t) ∧
    (∀ c, c ∈ requiredColumns → c ∈ (addMissing t).headers) ∧
    ∀ r2 ∈ (addMissing t).rows, ∃ r1 ∈ t.rows,
      (∀ x, x ∈ t.headers →
        getCell (addMissing t).headers r2 x = getCell t.headers r1 x) ∧
      (∀ c, c ∉ t.headers → c ∈ (addMissing t).headers →
        getCell (addMissing t).headers r2 c = defaultFor c) := by
  obtain ⟨added, h1, h2, h3⟩ := addMissing_spec t
  refine ⟨?_, h3, ?_⟩
  · intro r2 hr2
    rw [h2] at hr2
    obtain ⟨r1, hr1, rfl⟩ := List.mem_map.mp hr2
    rw [h1]
    simp [ht r1 hr1]
  · intro r2 hr2
    rw [h2] at hr2
    obtain ⟨r1, hr1, rfl⟩ := List.mem_map.mp hr2
    have hlen : r1.length = t.headers.length := ht r1 hr1
    refine ⟨r1, hr1, ?_, ?_⟩
    · intro x hx
      obtain ⟨i, hi⟩ := colIndex_isSome_of_mem hx
      have hi2 : colIndex (addMissing t).headers x = some i := by
        rw [h1]; exact colIndex_append_left hi
      rw [getCell_eq_getD hi2, getCell_eq_getD hi]
      exact getD_append_left (hlen ▸ colIndex_lt hi)
    · intro c hcn hcm
      rw [h1] at hcm
      have hcadd : c ∈ added := by
        rcases List.mem_append.mp hcm with h | h
        · exact absurd h hcn
        · exact h
      obtain ⟨j, hj⟩ := colIndex_isSome_of_mem hcadd
      have hidx : colIndex (addMissing t).headers c = some (j + t.headers.length) := by
        rw [h1, colIndex_append_right hcn, hj]
        rfl
      rw [getCell_eq_getD hidx]
      have hjlt : j < added.length := colIndex_lt hj
      calc (r1 ++ added.map defaultFor).getD (j + t.headers.length) CellValue.missing
          = (r1 ++ added.map defaultFor).getD (r1.length + j) CellValue.missing := by
            rw [hlen, Nat.add_comm]
        _ = (added.map defaultFor).getD j CellValue.missing := getD_append_right
        _ = defaultFor (added.getD j "") := getD_map_lt hjlt
        _ = defaultFor c := by rw [colIndex_getD hj]

/-! ## Helper lemmas: numeric coercion and the full loader pipeline -/

theorem toNumericCoerce_isNum (v : CellValue) : ∃ q, toNumericCoerce v = CellValue.num q := by
  cases v with
  | num q => exact ⟨q, rfl⟩
  | str s =>
    cases h : parseNumString s with
    | none => exact ⟨0, by simp [toNumericCoerce, h]⟩
    | some q => exact ⟨q, by simp [toNumericCoerce, h]⟩
  | missing => exact ⟨0, rfl⟩

theorem normalizeHeaders_rect {t : Table} (ht : Rect t) : Rect (normalizeHeaders t) := by
  intro r hr
  simpa [normalizeHeaders] using ht r hr

theorem mapColumn_headers (t : Table) (c : String) (f : CellValue → CellValue) :
    (mapColumn t c f).headers = t.headers := by
  cases h : colIndex t.headers c <;> simp [mapColumn, h]

theorem mapColumn_rect {t : Table} {c : String} {f : CellValue → CellValue}
    (ht : Rect t) : Rect (mapColumn t c f) := by
  intro r hr
  rw [mapColumn_headers]
  cases h : colIndex t.headers c with
  | none => simp [mapColumn, h] at hr; exact ht r hr
  | some i =>
    simp [mapColumn, h] at hr
    obtain ⟨r0, hr0, rfl⟩ := hr
    simpa using ht r0 hr0

theorem mapColumn_cells {t : Table} {c : String} {f : CellValue → CellValue}
    (ht : Rect t) (hc : c ∈ t.headers) :
    ∀ r2 ∈ (mapColumn t c f).rows, ∃ r1 ∈ t.rows,
      getCell t.headers r2 c = f (getCell t.headers r1 c) ∧
      (∀ x, x ≠ c → getCell t.headers r2 x = getCell t.headers r1 x) := by
  obtain ⟨i, hi⟩ := colIndex_isSome_of_mem hc
  intro r2 hr2
  simp [mapColumn, hi] at hr2
  obtain ⟨r1, hr1, rfl⟩ := hr2
  have hlen : i < r1.length := (ht r1 hr1) ▸ colIndex_lt hi
  refine ⟨r1, hr1, ?_, ?_⟩
  · rw [getCell_set_self hi hlen, getCell_eq_getD hi]
    simp [List.getD]
  · intro x hx
    exact getCell_set_ne hi hx

theorem loadTable_cells (t : Table) (ht : Rect t) :
    (loadTable t).headers = (addMissing (normalizeHeaders t)).headers ∧
    Rect (loadTable t) ∧
    ∀ r5 ∈ (loadTable t).rows, ∃ r2 ∈ (addMissing (normalizeHeaders t)).rows,
      (∀ c, (c = "Basic Salary" ∨ c = "Allowance" ∨ c = "Deductions") →
        getCell (loadTable t).headers r5 c =
          toNumericCoerce (getCell (addMissing (normalizeHeaders t)).headers r2 c)) ∧
      (∀ x, x ≠ "Basic Salary" → x ≠ "Allowance" → x ≠ "Deductions" →
        getCell (loadTable t).headers r5 x =
          getCell (addMissing (normalizeHeaders t)).headers r2 x) := by
  have ht1 : Rect (normalizeHeaders t) := normalizeHeaders_rect ht
  obtain ⟨ht2, hreq, _⟩ := addMissing_cells (normalizeHeaders t) ht1
  have hBS : "Basic Salary" ∈ (addMissing (normalizeHeaders t)).headers :=
    hreq "Basic Salary" (by decide)
  have hAl : "Allowance" ∈ (addMissing (normalizeHeaders t)).headers :=
    hreq "Allowance" (by decide)
  have hDe : "Deductions" ∈ (addMissing (normalizeHeaders t)).headers :=
    hreq "Deductions" (by decide)
  have h3h : (mapColumn (addMissing (normalizeHeaders t)) "Basic Salary" toNumericCoerce).headers
      = (addMissing (normalizeHeaders t)).headers := mapColumn_headers _ _ _
  have h4h : (mapColumn (mapColumn (addMissing (normalizeHeaders t)) "Basic Salary" toNumericCoerce)
        "Allowance" toNumericCoerce).headers
      = (addMissing (normalizeHeaders t)).headers := by
    rw [mapColumn_headers, h3h]
  have h5h : (mapColumn (mapColumn (mapColumn (addMissing (normalizeHeaders t))
        "Basic Salary" toNumericCoerce) "Allowance" toNumericCoerce)
        "Deductions" toNumericCoerce).headers
      = (addMissing (normalizeHeaders t)).headers := by
    rw [mapColumn_headers, h4h]
  have ht3 : Rect (mapColumn (addMissing (normalizeHeaders t)) "Basic Salary" toNumericCoerce) :=
    mapColumn_rect ht2
  have ht4 : Rect (mapColumn (mapColumn (addMissing (normalizeHeaders t))
      "Basic Salary" toNumericCoerce) "Allowance" toNumericCoerce) :=
    mapColumn_rect ht3
  have ht5 : Rect (mapColumn (mapColumn (mapColumn (addMissing (normalizeHeaders t))
      "Basic Salary" toNumericCoerce) "Allowance" toNumericCoerce)
      "Deductions" toNumericCoerce) :=
    mapColumn_rect ht4
  have hLoad : loadTable t = mapColumn (mapColumn (mapColumn (addMissing (normalizeHeaders t))
      "Basic Salary" toNumericCoerce) "Allowance" toNumericCoerce)
      "Deductions" toNumericCoerce := rfl
  refine ⟨by rw [hLoad, h5h], by rw [hLoad]; exact ht5, ?_⟩
  intro r5 hr5
  rw [hLoad] at hr5 ⊢
  obtain ⟨r4, hr4, h5self, h5ne⟩ := mapColumn_cells ht4 (h4h.symm ▸ hDe) r5 hr5
  obtain ⟨r3, hr3, h4self, h4ne⟩ := mapColumn_cells ht3 (h3h.symm ▸ hAl) r4 hr4
  obtain ⟨r2, hr2, h3self, h3ne⟩ := mapColumn_cells ht2 hBS r3 hr3
  rw [h4h] at h5self h5ne
  rw [h3h] at h4self h4ne
  refine ⟨r2, hr2, ?_, ?_⟩
  · intro c hc
    rw [h5h]
    rcases hc with rfl | rfl | rfl
    · rw [h5ne _ (by decide), h4ne _ (by decide), h3self]
    · rw [h5ne _ (by decide), h4self, h3ne _ (by decide)]
    · rw [h5self, h4ne _ (by decide), h3ne _ (by decide)]
  · intro x hx1 hx2 hx3
    rw [h5h, h5ne _ hx3, h4ne _ hx2, h3ne _ hx1]

/-- Summary of the loader pipeline used by several claims: the loaded
table is rectangular, every required column exists, the three numeric
columns hold numbers in every row, and a required column absent from the
stripped/renamed source headers holds its synthesized default in every
row. -/
theorem loadTable_spec (t : Table) (ht : Rect t) :
    Rect (loadTable t) ∧
    (∀ c, c ∈ requiredColumns → c ∈ (loadTable t).headers) ∧
    ∀ r5 ∈ (loadTable t).rows,
      (∀ c, (c = "Basic Salary" ∨ c = "Allowance" ∨ c = "Deductions") →
        ∃ q, getCell (loadTable t).headers r5 c = CellValue.num q) ∧
      (∀ c, c ∈ requiredColumns → c ∉ (normalizeHeaders t).headers →
        getCell (loadTable t).headers r5 c = defaultFor c) := by
  have ht1 : Rect (normalizeHeaders t) := normalizeHeaders_rect ht
  obtain ⟨ht2, hreq, hcells2⟩ := addMissing_cells (normalizeHeaders t) ht1
  obtain ⟨hhead, hrect5, hcells5⟩ := loadTable_cells t ht
  refine ⟨hrect5, fun c hc => by rw [hhead]; exact hreq c hc, ?_⟩
  intro r5 hr5
  obtain ⟨r2, hr2, hnum, hother⟩ := hcells5 r5 hr5
  obtain ⟨r1, _, _, hdefault⟩ := hcells2 r2 hr2
  constructor
  · intro c hc
    rw [hnum c hc]
    exact toNumericCoerce_isNum _
  · intro c hcreq hcnot
    have hcmem : c ∈ (addMissing (normalizeHeaders t)).headers := hreq c hcreq
    have hdef : getCell (addMissing (normalizeHeaders t)).headers r2 c = defaultFor c :=
      hdefault c hcnot hcmem
    by_cases hnc : c = "Basic Salary" ∨ c = "Allowance" ∨ c = "Deductions"
    · rw [hnum c hnc, hdef]
      have hce : c ≠ "Email" := by
        rcases hnc with rfl | rfl | rfl <;> decide
      simp [defaultFor, hce, toNumericCoerce]
    · push_neg at hnc
      rw [hother c hnc.1 hnc.2.1 hnc.2.2, hdef]

theorem loadTable_congr {t1 t2 : Table}
    (h : normalizeHeaders t1 = normalizeHeaders t2) : loadTable t1 = loadTable t2 := by
  unfold loadTable
  rw [h]

/-! ## Helper lemmas: renderer and the processing loop -/

theorem formatFixed2_neg {q : ℚ} (h : q < 0) : ∃ s, formatFixed2 q = "-" ++ s := by
  have hn : q.num < 0 := Rat.num_neg.mpr h
  refine ⟨toString ((200 * q.num.natAbs + q.den) / (2 * q.den) / 100) ++ "."
    ++ (if (200 * q.num.natAbs + q.den) / (2 * q.den) % 100 < 10 then "0" else "")
    ++ toString ((200 * q.num.natAbs + q.den) / (2 * q.den) % 100), ?_⟩
  simp [formatFixed2, String.append_assoc, hn, h]

theorem renderDoc_num {hs : List String} {r : List CellValue} {qb qa qd : ℚ}
    (hb : getCell hs r "Basic Salary" = CellValue.num qb)
    (ha : getCell hs r "Allowance" = CellValue.num qa)
    (hd : getCell hs r "Deductions" = CellValue.num qd) :
    renderDoc hs r = Except.ok
      [ "Employee Details:"
      , "Employee ID   : " ++ pyShowCell (getCell hs r "Employee ID")
      , "Name          : " ++ pyShowCell (getCell hs r "Name")
      , "Salary Details:"
      , "Basic Salary  : $ " ++ formatFixed2 qb
      , "Allowance     : $ " ++ formatFixed2 qa
      , "Deductions    : $ " ++ formatFixed2 qd
      , "Net Salary    : $ " ++ formatFixed2 (netSalary qb qa qd) ] := by
  rw [renderDoc.eq_def, hb, ha, hd]
  rfl

theorem emailGuard_skip {v : CellValue}
    (h : v = CellValue.missing ∨ ∃ s, v = CellValue.str s ∧ pyStrip s = "") :
    emailGuard v = Except.ok none := by
  rcases h with rfl | ⟨s, rfl, hs⟩
  · rfl
  · simp [emailGuard, hs]

theorem processEmployee_of_err {env : Env} {i : Nat} {hs : List String}
    {r : List CellValue} {evs : List Event} {e : String}
    (h : tryRest env i hs r = (evs, some e)) :
    processEmployee env i hs r =
      (Event.processing (getCell hs r "Name") (getCell hs r "Email") :: evs)
        ++ [Event.errLine (getCell hs r "Name") (getCell hs r "Employee ID") e] := by
  simp [processEmployee, tryBody, h]

theorem processEmployee_of_ok {env : Env} {i : Nat} {hs : List String}
    {r : List CellValue} {evs : List Event}
    (h : tryRest env i hs r = (evs, none)) :
    processEmployee env i hs r =
      Event.processing (getCell hs r "Name") (getCell hs r "Email") :: evs := by
  simp [processEmployee, tryBody, h]

theorem processing_mem_processEmployee (env : Env) (i : Nat) (hs : List String)
    (r : List CellValue) :
    Event.processing (getCell hs r "Name") (getCell hs r "Email")
      ∈ processEmployee env i hs r := by
  cases h : tryRest env i hs r with
  | mk evs oe =>
    cases oe with
    | none => rw [processEmployee_of_ok h]; exact List.mem_cons_self _ _
    | some e => rw [processEmployee_of_err h]; exact List.mem_append_left _ (List.mem_cons_self _ _)

theorem block_mem_map {env : Env} {t : Table} {k : Nat} (hk : k < t.rows.length) :
    processEmployee env k t.headers (t.rows.getD k [])
      ∈ t.rows.enum.map (fun p => processEmployee env p.1 t.headers p.2) := by
  have hk2 : k < t.rows.enum.length := by simpa using hk
  have hk3 : k < (t.rows.enum.map
      (fun p => processEmployee env p.1 t.headers p.2)).length := by simpa using hk
  have hEl : (t.rows.enum.map (fun p => processEmployee env p.1 t.headers p.2)).get ⟨k, hk3⟩
      = processEmployee env k t.headers (t.rows.getD k []) := by
    rw [List.get_eq_getElem, List.getElem_map, List.getElem_enum]
    have : t.rows.getD k [] = t.rows[k] := by
      simp [List.getD, List.getElem?_eq_getElem hk]
    rw [this]
  rw [← hEl]
  exact List.get_mem _ _ _

theorem mem_runBatch_of_mem_block {env : Env} {t : Table} {k : Nat} {x : Event}
    (hk : k < t.rows.length)
    (hx : x ∈ processEmployee env k t.headers (t.rows.getD k [])) :
    x ∈ runBatch env t := by
  unfold runBatch
  refine List.mem_append_left _ ?_
  exact List.mem_flatten.mpr ⟨_, block_mem_map hk, hx⟩

theorem runBatch_getLast (env : Env) (t : Table) :
    (runBatch env t).getLast? = some Event.finalLine := by
  simp [runBatch]

theorem mem_runBatch_elim {env : Env} {t : Table} {x : Event}
    (hx : x ∈ runBatch env t) :
    x = Event.finalLine ∨
      ∃ i r, r ∈ t.rows ∧ x ∈ processEmployee env i t.headers r := by
  unfold runBatch at hx
  rcases List.mem_append.mp hx with h | h
  · obtain ⟨b, hb, hxb⟩ := List.mem_flatten.mp h
    obtain ⟨p, hp, rfl⟩ := List.mem_map.mp hb
    refine Or.inr ⟨p.1, p.2, ?_, hxb⟩
    have hm : p.2 ∈ t.rows.enum.map Prod.snd := List.mem_map_of_mem Prod.snd hp
    rwa [show t.rows.enum.map Prod.snd = t.rows from List.enumFrom_map_snd 0 t.rows] at hm
  · simp at h
    exact Or.inl h

/-! ## Claims -/

/-- C1 counterexample: a header spelled `Allowances` is NOT remapped to
`Allowance`.  On the table `tblAllowances` the loader leaves the
`Allowances` column untouched (its value 500 is never coerced or used as
the allowance) and synthesizes a default-zero `Allowance` column, so the
record's allowance reads 0, not 500. -/
theorem claim1_counterexample :
    loadTable tblAllowances =
      ⟨["Allowances", "Employee ID", "Name", "Basic Salary", "Allowance", "Deductions", "Email"],
       [[CellValue.num 500, CellValue.num 0, CellValue.num 0, CellValue.num 0,
         CellValue.num 0, CellValue.num 0, CellValue.str ""]]⟩ ∧
    getCell (loadTable tblAllowances).headers
      ((loadTable tblAllowances).rows.getD 0 []) "Allowance" = CellValue.num 0 := by
  constructor
  · with_unfolding_all decide
  · with_unfolding_all decide

/-- C1 amended: the remapped historical misspelling is `Allawances`, not
`Allowances`: a header `Allawances` is treated identically to
`Allowance`, while `Allowances` is left as-is by the rename map (and a
default-zero `Allowance` column is synthesized in its place). -/
theorem claim1_amended :
    (∀ pre post rows,
      loadTable ⟨pre ++ "Allawances" :: post, rows⟩ =
        loadTable ⟨pre ++ "Allowance" :: post, rows⟩) ∧
    renameHeader "Allawances" = "Allowance" ∧
    renameHeader "Allowances" = "Allowances" := by
  refine ⟨?_, by decide, by decide⟩
  intro pre post rows
  apply loadTable_congr
  simp only [normalizeHeaders, List.map_append, List.map_cons]
  have h1 : renameHeader (pyStrip "Allawances") = "Allowance" := by decide
  have h2 : renameHeader (pyStrip "Allowance") = "Allowance" := by decide
  rw [h1, h2]

/-- C2 counterexample: with the server host absent (but the port set),
startup succeeds, the record is processed, a payslip is written, and a
dispatch is attempted (failing per-record), refuting "fails fast before
any record is processed and before any dispatch is attempted". -/
theorem claim2_counterexample :
    cfgC2.smtpServer = none ∧
    startup cfgC2 = Except.ok ⟨none, 587, some "sender@example.com", some "pw"⟩ ∧
    Event.processing (CellValue.str "Ann Bee") (CellValue.str "ann@example.com")
      ∈ runMain cfgC2 envC2 (Except.ok tblC2) ∧
    Event.errLine (CellValue.str "Ann Bee") (CellValue.num 1)
        "ConnectionRefusedError: could not connect"
      ∈ runMain cfgC2 envC2 (Except.ok tblC2) := by
  refine ⟨rfl, by with_unfolding_all rfl, ?_, ?_⟩
  · with_unfolding_all decide
  · with_unfolding_all decide

/-- C2 amended: only the port is validated at startup: if `SMTP_PORT` is
absent (or `startup` raises for any reason) the run aborts before any
record is processed; the other three transport values are stored as read,
and their absence does not abort the run. -/
theorem claim2_amended :
    (∀ c env src, c.smtpPort = none → runMain c env src = []) ∧
    (∀ c env src e, startup c = Except.error e → runMain c env src = []) ∧
    (∀ server addr pw, startup ⟨server, some "587", addr, pw⟩ =
      Except.ok ⟨server, 587, addr, pw⟩) := by
  refine ⟨?_, ?_, ?_⟩
  · intro c env src h
    simp [runMain, startup, pyIntOfEnv, h]
  · intro c env src e h
    simp [runMain, h]
  · intro server addr pw
    have hp : parsePyInt "587" = some 587 := by decide
    simp [startup, pyIntOfEnv, hp]

/-- C2 amended witness: a configuration missing only the port aborts with
no events; a configuration missing everything but the port starts up. -/
theorem claim2_witness :
    runMain ⟨some "smtp.example.com", none, some "a@b.c", some "pw"⟩ envNone
        (Except.ok tblC2) = [] ∧
    startup ⟨none, some "587", none, none⟩ = Except.ok ⟨none, 587, none, none⟩ := by
  constructor
  · exact claim2_amended.1 _ _ _ rfl
  · exact claim2_amended.2.2 none none none

/-- C3 counterexample: a header differing from `Name` only in letter
case is not recognized: the loader leaves the `name` column untouched
and synthesizes a default `Name` column, so the record's Name reads the
numeric default 0, not "Bob". -/
theorem claim3_counterexample :
    loadTable tblLowerName =
      ⟨["name", "Employee ID", "Name", "Basic Salary", "Allowance", "Deductions", "Email"],
       [[CellValue.str "Bob", CellValue.num 0, CellValue.num 0, CellValue.num 0,
         CellValue.num 0, CellValue.num 0, CellValue.str ""]]⟩ ∧
    getCell (loadTable tblLowerName).headers
      ((loadTable tblLowerName).rows.getD 0 []) "Name" = CellValue.num 0 := by
  constructor
  · with_unfolding_all decide
  · with_unfolding_all decide

/-- C3 amended: column recognition is whitespace-insensitive but
case-sensitive: two headers equal after stripping surrounding whitespace
are treated identically by the loader (letter case is never folded). -/
theorem claim3_amended (h c : String) (pre post : List String)
    (rows : List (List CellValue)) (heq : pyStrip h = pyStrip c) :
    loadTable ⟨pre ++ h :: post, rows⟩ = loadTable ⟨pre ++ c :: post, rows⟩ := by
  apply loadTable_congr
  simp only [normalizeHeaders, List.map_append, List.map_cons]
  rw [heq]

/-- C3 amended witness: a header `  Name ` is recognized exactly like
`Name`. -/
theorem claim3_witness :
    pyStrip "  Name " = pyStrip "Name" ∧
    loadTable ⟨["  Name ", "Email"], [[CellValue.str "Bob", CellValue.str "b@c.d"]]⟩ =
      loadTable ⟨["Name", "Email"], [[CellValue.str "Bob", CellValue.str "b@c.d"]]⟩ := by
  constructor
  · decide
  · exact claim3_amended "  Name " "Name" [] ["Email"]
      [[CellValue.str "Bob", CellValue.str "b@c.d"]] (by decide)

/-- C4: the net salary on the payslip is recomputed at render time from
the record's current numeric fields as basic + allowance - deductions
(it is a function of those fields only, never read from a store), and
when deductions exceed basic + allowance the rendered value is negative
and its rendering starts with a minus sign. -/
theorem claim4_net_salary (hs : List String) (r : List CellValue) (qb qa qd : ℚ)
    (hb : getCell hs r "Basic Salary" = CellValue.num qb)
    (ha : getCell hs r "Allowance" = CellValue.num qa)
    (hd : getCell hs r "Deductions" = CellValue.num qd) :
    netSalary qb qa qd = qb + qa - qd ∧
    (∃ doc, renderDoc hs r = Except.ok doc ∧
      doc.getLast? = some ("Net Salary    : $ " ++ formatFixed2 (netSalary qb qa qd))) ∧
    (qb + qa < qd → netSalary qb qa qd < 0 ∧
      ∃ s, formatFixed2 (netSalary qb qa qd) = "-" ++ s) := by
  refine ⟨rfl, ⟨_, renderDoc_num hb ha hd, by simp⟩, ?_⟩
  intro hlt
  have hneg : netSalary qb qa qd < 0 := by
    unfold netSalary
    linarith
  exact ⟨hneg, formatFixed2_neg hneg⟩

/-- C4 witness: on `rowNeg` (1000 + 500 - 2000) the net salary is
negative and rendered with a leading minus sign. -/
theorem claim4_witness :
    (∃ doc, renderDoc hsFull rowNeg = Except.ok doc ∧
      doc.getLast? = some ("Net Salary    : $ " ++ formatFixed2 (netSalary 1000 500 2000))) ∧
    netSalary 1000 500 2000 < 0 ∧
    (∃ s, formatFixed2 (netSalary 1000 500 2000) = "-" ++ s) := by
  have h := claim4_net_salary hsFull rowNeg 1000 500 2000 (by decide) (by decide) (by decide)
  exact ⟨h.2.1, h.2.2 (by norm_num)⟩

/-- C5: numeric coercion is total (never raises): every cell coerces to
a number, any string that fails to parse (such as "N/A") coerces to 0,
and after loading, every row of every rectangular table holds a number
in each of the three numeric columns. -/
theorem claim5_coercion_never_raises :
    (∀ v, ∃ q, toNumericCoerce v = CellValue.num q) ∧
    toNumericCoerce (CellValue.str "N/A") = CellValue.num 0 ∧
    (∀ s, parseNumString s = none → toNumericCoerce (CellValue.str s) = CellValue.num 0) ∧
    (∀ t, Rect t → ∀ c, (c = "Basic Salary" ∨ c = "Allowance" ∨ c = "Deductions") →
      ∀ r ∈ (loadTable t).rows, ∃ q, getCell (loadTable t).headers r c = CellValue.num q) := by
  refine ⟨toNumericCoerce_isNum, by decide, ?_, ?_⟩
  · intro s h
    simp [toNumericCoerce, h]
  · intro t ht c hc r hr
    exact ((loadTable_spec t ht).2.2 r hr).1 c hc

/-- C5 witness: the table whose Basic Salary cell is the string "N/A"
loads to a numeric Basic Salary. -/
theorem claim5_witness :
    ∃ q, getCell (loadTable tblC5).headers ((loadTable tblC5).rows.getD 0 [])
      "Basic Salary" = CellValue.num q := by
  exact claim5_coercion_never_raises.2.2.2 tblC5 (by decide) "Basic Salary" (Or.inl rfl)
    ((loadTable tblC5).rows.getD 0 []) (by with_unfolding_all decide)

/-- C7: a record whose Email cell is missing, or blank after stripping,
still renders and writes its payslip, but the dispatcher is never
invoked and no error is raised for it (skip, not error). -/
theorem claim7_blank_email_skips_dispatch (env : Env) (i : Nat) (hs : List String)
    (r : List CellValue)
    (hmail : getCell hs r "Email" = CellValue.missing ∨
      ∃ s, getCell hs r "Email" = CellValue.str s ∧ pyStrip s = "")
    (hdoc : ∃ doc, renderDoc hs r = Except.ok doc)
    (hre : env.renderErr i = none)
    (hbase : ∃ base, nameToFileBase (getCell hs r "Name") = Except.ok base)
    (hwe : env.writeErr i = none) :
    (∃ p d, Event.wrote p d ∈ processEmployee env i hs r) ∧
    (∀ a p, Event.dispatched a p ∉ processEmployee env i hs r) ∧
    (tryRest env i hs r).2 = none := by
  obtain ⟨doc, hdoc⟩ := hdoc
  obtain ⟨base, hbase⟩ := hbase
  have hguard := emailGuard_skip hmail
  have htr : tryRest env i hs r = ([Event.wrote (payslipPath base) doc], none) := by
    simp [tryRest, hdoc, hre, hbase, hwe, hguard]
  rw [processEmployee_of_ok htr]
  refine ⟨⟨payslipPath base, doc, by simp⟩, ?_, by rw [htr]⟩
  intro a p
  simp

/-- C7 witness: the whitespace-email row `rowBlankMail` gets its payslip
written and is never dispatched. -/
theorem claim7_witness :
    (∃ p d, Event.wrote p d ∈ processEmployee envNone 0 hsFull rowBlankMail) ∧
    (∀ a p, Event.dispatched a p ∉ processEmployee envNone 0 hsFull rowBlankMail) ∧
    (tryRest envNone 0 hsFull rowBlankMail).2 = none := by
  exact claim7_blank_email_skips_dispatch envNone 0 hsFull rowBlankMail
    (Or.inr ⟨"   ", by decide, by decide⟩)
    ⟨_, @renderDoc_num hsFull rowBlankMail 100 10 5 (by decide) (by decide) (by decide)⟩
    rfl ⟨"Bo_Cy", by with_unfolding_all rfl⟩ rfl

/-- C8: after loading a rectangular table, every required column exists;
any required column that was absent from the stripped/renamed source
headers holds its synthesized default in every row, and the defaults are
the empty string for Email and the number 0 for every other column. -/
theorem claim8_required_columns_synthesized (t : Table) (ht : Rect t) :
    (∀ c, c ∈ requiredColumns → c ∈ (loadTable t).headers) ∧
    (∀ c, c ∈ requiredColumns → c ∉ (normalizeHeaders t).headers →
      ∀ r ∈ (loadTable t).rows, getCell (loadTable t).headers r c = defaultFor c) ∧
    defaultFor "Email" = CellValue.str "" ∧
    (∀ c, c ≠ "Email" → defaultFor c = CellValue.num 0) := by
  obtain ⟨hrect, hmem, hcells⟩ := loadTable_spec t ht
  refine ⟨hmem, ?_, rfl, fun c hc => by simp [defaultFor, hc]⟩
  intro c hc1 hc2 r hr
  exact (hcells r hr).2 c hc1 hc2

/-- C8 witness: on `tblC8` (headers `Allowances`, `Email`) the absent
`Allowance` and `Name` columns are synthesized with their defaults. -/
theorem claim8_witness :
    getCell (loadTable tblC8).headers ((loadTable tblC8).rows.getD 0 [])
      "Allowance" = defaultFor "Allowance" ∧
    getCell (loadTable tblC8).headers ((loadTable tblC8).rows.getD 0 [])
      "Name" = defaultFor "Name" := by
  have h := claim8_required_columns_synthesized tblC8 (by decide)
  constructor
  · exact h.2.1 "Allowance" (by decide) (by decide)
      ((loadTable tblC8).rows.getD 0 []) (by with_unfolding_all decide)
  · exact h.2.1 "Name" (by decide) (by decide)
      ((loadTable tblC8).rows.getD 0 []) (by with_unfolding_all decide)

/-- C6: any exception raised inside a record's try-block (rendering or
dispatch alike) is caught at the per-record boundary: the diagnostic
event carrying the employee's Name and Employee ID and the error detail
appears in the batch output, the final completion line is still printed,
and every record of the batch still gets its progress line (iteration is
never aborted). -/
theorem claim6_per_record_isolation (env : Env) (t : Table) (i : Nat) (e : String)
    (hi : i < t.rows.length)
    (herr : (tryRest env i t.headers (t.rows.getD i [])).2 = some e) :
    Event.errLine (getCell t.headers (t.rows.getD i []) "Name")
        (getCell t.headers (t.rows.getD i []) "Employee ID") e ∈ runBatch env t ∧
    (runBatch env t).getLast? = some Event.finalLine ∧
    (∀ j, j < t.rows.length →
      Event.processing (getCell t.headers (t.rows.getD j []) "Name")
        (getCell t.headers (t.rows.getD j []) "Email") ∈ runBatch env t) := by
  refine ⟨?_, runBatch_getLast env t, ?_⟩
  · cases htr : tryRest env i t.headers (t.rows.getD i []) with
    | mk evs oe =>
      have hoe : oe = some e := by rw [htr] at herr; exact herr
      subst hoe
      apply mem_runBatch_of_mem_block hi
      rw [processEmployee_of_err htr]
      simp
  · intro j hj
    exact mem_runBatch_of_mem_block hj (processing_mem_processEmployee env j _ _)

/-- C6 witness: with an environment whose PDF rendering raises, the
one-record batch reports the failure with the employee's name and id and
still prints the completion line. -/
theorem claim6_witness :
    Event.errLine (getCell tblC2.headers (tblC2.rows.getD 0 []) "Name")
        (getCell tblC2.headers (tblC2.rows.getD 0 []) "Employee ID")
        "UnicodeEncodeError: latin-1 codec cannot encode character"
      ∈ runBatch envC6 tblC2 ∧
    (runBatch envC6 tblC2).getLast? = some Event.finalLine := by
  have h := claim6_per_record_isolation envC6 tblC2 0
    "UnicodeEncodeError: latin-1 codec cannot encode character"
    (by decide) (by with_unfolding_all decide)
  exact ⟨h.1, h.2.1⟩

theorem writesOf_processEmployee {env : Env} {i : Nat} {hs : List String}
    {r : List CellValue} {doc : List String} {base : String}
    (hdoc : renderDoc hs r = Except.ok doc)
    (hre : env.renderErr i = none)
    (hbase : nameToFileBase (getCell hs r "Name") = Except.ok base)
    (hwe : env.writeErr i = none) :
    writesOf (processEmployee env i hs r) = [(payslipPath base, doc)] := by
  cases hg : emailGuard (getCell hs r "Email") with
  | error e =>
    have htr : tryRest env i hs r = ([Event.wrote (payslipPath base) doc], some e) := by
      simp [tryRest, hdoc, hre, hbase, hwe, hg]
    rw [processEmployee_of_err htr]
    simp [writesOf]
  | ok og =>
    cases og with
    | none =>
      have htr : tryRest env i hs r = ([Event.wrote (payslipPath base) doc], none) := by
        simp [tryRest, hdoc, hre, hbase, hwe, hg]
      rw [processEmployee_of_ok htr]
      simp [writesOf]
    | some addr =>
      cases hde : env.dispatchErr i with
      | some e =>
        have htr : tryRest env i hs r = ([Event.wrote (payslipPath base) doc], some e) := by
          simp [tryRest, hdoc, hre, hbase, hwe, hg, hde]
        rw [processEmployee_of_err htr]
        simp [writesOf]
      | none =>
        have htr : tryRest env i hs r =
            ([Event.wrote (payslipPath base) doc,
              Event.dispatched addr (payslipPath base)], none) := by
          simp [tryRest, hdoc, hre, hbase, hwe, hg, hde]
        rw [processEmployee_of_ok htr]
        simp [writesOf]

theorem runBatch_two (env : Env) (hs : List String) (r1 r2 : List CellValue) :
    runBatch env ⟨hs, [r1, r2]⟩ =
      processEmployee env 0 hs r1 ++ processEmployee env 1 hs r2 ++ [Event.finalLine] := by
  simp [runBatch, List.enum, List.enumFrom]

/-- C9: the output path is exactly the record's Name with spaces mapped
to underscores plus `_Payslip.pdf` under the fixed `payslips` directory;
two records with the same Name map to the same path, and after a
two-record batch with equal Names the file at that path holds the
second record's document (the second write overwrites the first, with no
disambiguation). -/
theorem claim9_path_derivation_overwrite :
    (∀ s, nameToFileBase (CellValue.str s) = Except.ok (replaceSpaces s)) ∧
    (∀ b, payslipPath b = outputDir ++ "/" ++ b ++ "_Payslip.pdf") ∧
    (∀ env hs r1 r2 s doc1 doc2,
      getCell hs r1 "Name" = CellValue.str s →
      getCell hs r2 "Name" = CellValue.str s →
      renderDoc hs r1 = Except.ok doc1 →
      renderDoc hs r2 = Except.ok doc2 →
      (∀ i, env.renderErr i = none) →
      (∀ i, env.writeErr i = none) →
      writesOf (runBatch env ⟨hs, [r1, r2]⟩) =
        [(payslipPath (replaceSpaces s), doc1), (payslipPath (replaceSpaces s), doc2)] ∧
      fsAfter (runBatch env ⟨hs, [r1, r2]⟩) (payslipPath (replaceSpaces s)) = some doc2) := by
  refine ⟨fun s => rfl, fun b => rfl, ?_⟩
  intro env hs r1 r2 s doc1 doc2 hn1 hn2 hd1 hd2 hre hwe
  have hb1 : nameToFileBase (getCell hs r1 "Name") = Except.ok (replaceSpaces s) := by
    rw [hn1]
    rfl
  have hb2 : nameToFileBase (getCell hs r2 "Name") = Except.ok (replaceSpaces s) := by
    rw [hn2]
    rfl
  have w1 := writesOf_processEmployee hd1 (hre 0) hb1 (hwe 0)
  have w2 := writesOf_processEmployee hd2 (hre 1) hb2 (hwe 1)
  have hw : writesOf (runBatch env ⟨hs, [r1, r2]⟩) =
      [(payslipPath (replaceSpaces s), doc1), (payslipPath (replaceSpaces s), doc2)] := by
    rw [runBatch_two]
    simp only [writesOf] at w1 w2 ⊢
    rw [List.filterMap_append, List.filterMap_append, w1, w2]
    simp
  refine ⟨hw, ?_⟩
  simp [fsAfter, hw]

/-- C9 witness: two records both named "Ann Bee" produce two writes to
the same path, and the surviving file content is the second document. -/
theorem claim9_witness :
    writesOf (runBatch envNone ⟨hsFull, [rowAnn, rowAnn]⟩) =
      [(payslipPath (replaceSpaces "Ann Bee"), docAnn),
       (payslipPath (replaceSpaces "Ann Bee"), docAnn)] ∧
    fsAfter (runBatch envNone ⟨hsFull, [rowAnn, rowAnn]⟩)
      (payslipPath (replaceSpaces "Ann Bee")) = some docAnn := by
  exact claim9_path_derivation_overwrite.2.2 envNone hsFull rowAnn rowAnn "Ann Bee" docAnn docAnn
    (by decide) (by decide)
    (by with_unfolding_all rfl) (by with_unfolding_all rfl)
    (fun i => rfl) (fun i => rfl)

/-- C10: when the source table has no Name column at all (after header
normalization), the synthesized Name default is the number 0, so for
every record the filename derivation raises `AttributeError`, caught at
the per-record boundary: no payslip is written and nothing is
dispatched, every record yields only its progress line and an error
line, yet the batch completes and the final success line is printed. -/
theorem claim10_missing_name_column (env : Env) (t : Table) (ht : Rect t)
    (hnm : "Name" ∉ (normalizeHeaders t).headers)
    (hre : ∀ i, env.renderErr i = none) :
    (∀ r ∈ (loadTable t).rows,
      getCell (loadTable t).headers r "Name" = CellValue.num 0) ∧
    (∀ i r, r ∈ (loadTable t).rows →
      processEmployee env i (loadTable t).headers r =
        [Event.processing (CellValue.num 0) (getCell (loadTable t).headers r "Email"),
         Event.errLine (CellValue.num 0) (getCell (loadTable t).headers r "Employee ID")
           "AttributeError: int object has no attribute replace"]) ∧
    (∀ ev ∈ runProgram env t,
      (∀ p d, ev ≠ Event.wrote p d) ∧ (∀ a p, ev ≠ Event.dispatched a p)) ∧
    (runProgram env t).getLast? = some Event.finalLine := by
  obtain ⟨hrect, hmem, hcells⟩ := loadTable_spec t ht
  have hname : ∀ r ∈ (loadTable t).rows,
      getCell (loadTable t).headers r "Name" = CellValue.num 0 := by
    intro r hr
    have h := (hcells r hr).2 "Name" (by decide) hnm
    simpa [defaultFor] using h
  have hproc : ∀ i r, r ∈ (loadTable t).rows →
      processEmployee env i (loadTable t).headers r =
        [Event.processing (CellValue.num 0) (getCell (loadTable t).headers r "Email"),
         Event.errLine (CellValue.num 0) (getCell (loadTable t).headers r "Employee ID")
           "AttributeError: int object has no attribute replace"] := by
    intro i r hr
    obtain ⟨qb, hb⟩ := (hcells r hr).1 "Basic Salary" (Or.inl rfl)
    obtain ⟨qa, ha⟩ := (hcells r hr).1 "Allowance" (Or.inr (Or.inl rfl))
    obtain ⟨qd, hd⟩ := (hcells r hr).1 "Deductions" (Or.inr (Or.inr rfl))
    have hdoc := renderDoc_num hb ha hd
    have htr : tryRest env i (loadTable t).headers r =
        ([], some "AttributeError: int object has no attribute replace") := by
      simp [tryRest, hdoc, hre i, hname r hr, nameToFileBase]
    rw [processEmployee_of_err htr, hname r hr]
    simp
  refine ⟨hname, hproc, ?_, runBatch_getLast env (loadTable t)⟩
  intro ev hev
  have hev2 : ev ∈ runBatch env (loadTable t) := hev
  rcases mem_runBatch_elim hev2 with rfl | ⟨i, r, hr, hin⟩
  · exact ⟨fun p d => by simp, fun a p => by simp⟩
  · rw [hproc i r hr] at hin
    simp only [List.mem_cons, List.mem_singleton, List.not_mem_nil, or_false] at hin
    rcases hin with rfl | rfl
    · exact ⟨fun p d => by simp, fun a p => by simp⟩
    · exact ⟨fun p d => by simp, fun a p => by simp⟩

/-- C10 witness: the table with only an `Employee ID` column runs to the
final line with the per-record AttributeError diagnostic and no writes. -/
theorem claim10_witness :
    (∀ r ∈ (loadTable tblNoName).rows,
      getCell (loadTable tblNoName).headers r "Name" = CellValue.num 0) ∧
    (runProgram envNone tblNoName).getLast? = some Event.finalLine := by
  have h := claim10_missing_name_column envNone tblNoName (by decide) (by decide)
    (fun i => rfl)
  exact ⟨h.1, h.2.2.2⟩

end Project
